import Mathlib

/-!
Verification of the TaskWise dashboard's view-derivation and mutation logic.

The definitions below are a shallow embedding of the reconciliation and view
derivation code in `src/components/dashboard.tsx` (the `Dashboard` component
and its helpers).  JavaScript `Date` values are modelled by their epoch-
millisecond value (`Int`, as returned by `Date.prototype.getTime`);
`Array.prototype.sort`, which is guaranteed stable and is invoked here only
with consistent comparators (total preorders), is modelled by
`List.insertionSort` over the comparator's "≤ 0" relation — for a total
preorder every stable sort produces the same list; `localeCompare` and the
default string sort are modelled as code-point lexicographic comparison.
-/

namespace TaskWise

/-- Priority enum `TaskPriority` from `src/types/task.ts`: `'low' | 'medium' | 'high'`. -/
inductive TaskPriority where
  | low
  | medium
  | high
deriving DecidableEq, Repr

/-- The `Task` interface from `src/types/task.ts` (with the `createdAt`
field added by `useTasks` in `dashboard.tsx`).  `deadline` is the epoch
millisecond value of the `Date`. -/
structure Task where
  id : String
  title : String
  description : Option String := none
  deadline : Int
  priority : TaskPriority
  completed : Bool
  category : Option String := none
  createdAt : Option Int := none
deriving DecidableEq, Repr

/-- Sort modes `SortOption` from `dashboard.tsx`. -/
inductive SortOption where
  | deadline
  | priority
  | title
  | category
deriving DecidableEq, Repr

/-- Status filters `FilterOption` from `dashboard.tsx`. -/
inductive FilterOption where
  | all
  | completed
  | incomplete
deriving DecidableEq, Repr

/-- Rank table `priorityOrder` from `dashboard.tsx`: `{ high: 3, medium: 2, low: 1 }`. -/
def priorityOrder : TaskPriority → Int
  | .high => 3
  | .medium => 2
  | .low => 1

/-- Model of `String.prototype.localeCompare`: the sign of code-point
lexicographic comparison of the two strings. -/
def localeCompare (s t : String) : Int :=
  if s.data < t.data then -1 else if t.data < s.data then 1 else 0

/-- Fallback `task.category || ''` from the `category` sort branch in `dashboard.tsx`:
an absent category is replaced by the empty string. -/
def catOrEmpty (t : Task) : String := t.category.getD ""

/-- The `switch (sortOption)` body of the comparator inside
`filteredAndSortedTasks` in `dashboard.tsx` (lines 243-259). -/
def sortCompare (sortOption : SortOption) (a b : Task) : Int :=
  match sortOption with
  | .deadline => a.deadline - b.deadline
  | .priority =>
      let priorityDiff := priorityOrder b.priority - priorityOrder a.priority
      if priorityDiff ≠ 0 then priorityDiff else a.deadline - b.deadline
  | .title => localeCompare a.title b.title
  | .category =>
      let catA := catOrEmpty a
      let catB := catOrEmpty b
      if catA ≠ catB then localeCompare catA catB else a.deadline - b.deadline

/-- The full comparator passed to `filtered.sort` in `dashboard.tsx`
(lines 237-260): when the status filter is `all` and the two tasks differ
in completion status, the completed one is pushed after the incomplete one;
otherwise the `sortOption` switch decides. -/
def taskCompare (filterOption : FilterOption) (sortOption : SortOption)
    (a b : Task) : Int :=
  if filterOption = FilterOption.all ∧ a.completed ≠ b.completed then
    (if a.completed then 1 else -1)
  else sortCompare sortOption a b

/-- The non-strict order induced by the comparator: `taskCompare … ≤ 0`.
A stable sort under a consistent comparator orders the list exactly by this
relation. -/
def taskLe (f : FilterOption) (so : SortOption) (a b : Task) : Prop :=
  taskCompare f so a b ≤ 0

instance (f : FilterOption) (so : SortOption) : DecidableRel (taskLe f so) :=
  fun a b => Int.decLe (taskCompare f so a b) 0

/-- The status-filter branch of `filteredAndSortedTasks`
(`if (filterOption === 'completed') … else if (filterOption === 'incomplete') …`). -/
def applyStatusFilter (f : FilterOption) (tasks : List Task) : List Task :=
  if f = FilterOption.completed then tasks.filter (fun t => t.completed)
  else if f = FilterOption.incomplete then tasks.filter (fun t => !t.completed)
  else tasks

/-- The category-filter branch of `filteredAndSortedTasks`
(`if (categoryFilter !== 'all') filtered = filtered.filter(t => t.category === categoryFilter)`). -/
def applyCategoryFilter (cf : String) (tasks : List Task) : List Task :=
  if cf ≠ "all" then tasks.filter (fun t => t.category == some cf) else tasks

/-- Derivation `filteredAndSortedTasks` from `dashboard.tsx` (lines 220-261): status
filter, then category filter, then the stable sort under `taskCompare`. -/
def filteredAndSortedTasks (tasks : List Task) (f : FilterOption)
    (cf : String) (so : SortOption) : List Task :=
  List.insertionSort (taskLe f so) (applyCategoryFilter cf (applyStatusFilter f tasks))

/-- The contents of the `tasks` array after `filteredAndSortedTasks` has
run.  `Array.prototype.filter` allocates a fresh array, but when
`filterOption === 'all'` and `categoryFilter === 'all'` neither `filter`
call runs, so `filtered` is the `tasks` array itself and
`Array.prototype.sort` then reorders that very array in place. -/
def tasksAfterDerive (tasks : List Task) (f : FilterOption)
    (cf : String) (so : SortOption) : List Task :=
  if f = FilterOption.all ∧ cf = "all" then
    List.insertionSort (taskLe f so) tasks
  else tasks

/-- Aggregate `completedTasks` from `dashboard.tsx` (line 199). -/
def completedTasks (tasks : List Task) : Nat :=
  (tasks.filter (fun t => t.completed)).length

/-- Aggregate `totalTasks` from `dashboard.tsx` (line 200). -/
def totalTasks (tasks : List Task) : Nat := tasks.length

/-- Aggregate `incompleteTasksCount` from `dashboard.tsx` (line 201). -/
def incompleteTasksCount (tasks : List Task) : Nat :=
  totalTasks tasks - completedTasks tasks

/-- Aggregate `completionRate` from `dashboard.tsx` (line 202):
`totalTasks > 0 ? Math.round((completedTasks / totalTasks) * 100) : 0`. -/
def completionRate (tasks : List Task) : ℤ :=
  if totalTasks tasks > 0 then
    round (((completedTasks tasks : ℚ) / (totalTasks tasks : ℚ)) * 100)
  else 0

/-- The deadline-ascending comparator `(a, b) => a.deadline - b.deadline`
used for `upcomingTasks`, as its `≤ 0` relation. -/
def deadlineLe (a b : Task) : Prop := a.deadline - b.deadline ≤ 0

instance : DecidableRel deadlineLe := fun a b => Int.decLe (a.deadline - b.deadline) 0

/-- Aggregate `upcomingTasks` from `dashboard.tsx` (line 203): incomplete tasks whose
deadline is at or after `now`, sorted ascending by deadline, first three.
`new Date()` at evaluation time is the parameter `now`. -/
def upcomingTasks (tasks : List Task) (now : Int) : List Task :=
  (List.insertionSort deadlineLe
    (tasks.filter (fun t => !t.completed && now ≤ t.deadline))).take 3

/-- Aggregate `overdueTasksCount` from `dashboard.tsx` (line 204): incomplete tasks
whose deadline is strictly before `now`. -/
def overdueTasksCount (tasks : List Task) (now : Int) : Nat :=
  (tasks.filter (fun t => !t.completed && t.deadline < now)).length

/-- Code-point order on strings, modelling the default comparator of
`Array.from(categories).sort()` in `uniqueCategories`. -/
def strLe (s t : String) : Prop := s.data ≤ t.data

instance : DecidableRel strLe := fun s t =>
  (inferInstance : Decidable (s.data ≤ t.data))

/-- Facet list `uniqueCategories` from `dashboard.tsx` (lines 207-215): the distinct
truthy (present and non-empty) category values, sorted, with `'all'`
prepended.  The JS `Set` preserves first-insertion order, but since the
collected values are then sorted and pairwise distinct, the result is
independent of that order. -/
def uniqueCategories (tasks : List Task) : List String :=
  let categories := ((tasks.filterMap Task.category).filter (fun c => c ≠ "")).dedup
  "all" :: List.insertionSort strLe categories

/-- The locally held task list (the `tasks` data of the `useTasks` query
cache), the state the derived view is computed from. -/
structure DashboardState where
  tasks : List Task
deriving DecidableEq, Repr

/-- Payload `TaskInputData`: the payload submitted by the add-task form. -/
structure TaskInputData where
  title : String
  description : Option String := none
  deadline : Int
  priority : TaskPriority
  category : Option String := none
deriving DecidableEq, Repr

/-- Submitting the `create` mutation (`addTask(data)` in `dashboard.tsx`,
lines 111-122 and 163-165).  The `useMutation` configuration registers no
`onMutate` handler and never writes to the query cache, so calling `mutate`
leaves the locally held task list unchanged; only the asynchronous
`addTaskMutation` call is dispatched. -/
def submitCreate (s : DashboardState) (_data : TaskInputData) : DashboardState := s

/-- The `onError` handler of the add-task mutation: it logs and shows a
toast; the query cache is untouched. -/
def onCreateError (s : DashboardState) : DashboardState := s

/-- Arrival of a fresh snapshot (the `onSnapshot` callback of `useTasks`,
reached after `onSuccess` invalidates the query): the cached task list is
replaced wholesale by the snapshot. -/
def applySnapshot (_s : DashboardState) (snapshot : List Task) : DashboardState :=
  ⟨snapshot⟩

/-- Effect of a confirmed `toggleTaskCompleteMutation` on the stored
collection (`updateDoc(taskRef, { completed })`): the next snapshot carries
the matching document with its `completed` field overwritten. -/
def toggleTaskComplete (tasks : List Task) (id : String) (completed : Bool) :
    List Task :=
  tasks.map (fun t => if t.id = id then { t with completed := completed } else t)

/-! ### Order theory of the comparators -/

/-- The per-mode sort key as a proposition: what `sortCompare so a b ≤ 0`
means for each sort mode. -/
def sortKeyLe (so : SortOption) (a b : Task) : Prop :=
  match so with
  | .deadline => a.deadline ≤ b.deadline
  | .priority => priorityOrder b.priority < priorityOrder a.priority ∨
      (priorityOrder a.priority = priorityOrder b.priority ∧ a.deadline ≤ b.deadline)
  | .title => a.title.data ≤ b.title.data
  | .category => (catOrEmpty a).data < (catOrEmpty b).data ∨
      (catOrEmpty a = catOrEmpty b ∧ a.deadline ≤ b.deadline)

lemma localeCompare_le_iff (s t : String) :
    localeCompare s t ≤ 0 ↔ s.data ≤ t.data := by
  unfold localeCompare
  rcases lt_trichotomy s.data t.data with h | h | h
  · rw [if_pos h]
    exact iff_of_true (by omega) (le_of_lt h)
  · rw [if_neg (by simp [h]), if_neg (by simp [h])]
    exact iff_of_true le_rfl (le_of_eq h)
  · rw [if_neg (asymm h), if_pos h]
    exact iff_of_false (by omega) (not_le.mpr h)

lemma sortCompare_le_iff (so : SortOption) (a b : Task) :
    sortCompare so a b ≤ 0 ↔ sortKeyLe so a b := by
  cases so with
  | deadline =>
      simp only [sortCompare, sortKeyLe]
      omega
  | priority =>
      simp only [sortCompare, sortKeyLe]
      split_ifs with h <;> omega
  | title =>
      simp only [sortCompare, sortKeyLe]
      exact localeCompare_le_iff a.title b.title
  | category =>
      simp only [sortCompare, sortKeyLe]
      by_cases h : catOrEmpty a = catOrEmpty b
      · rw [if_neg (by simp [h])]
        simp only [h, lt_irrefl, false_or, true_and]
        omega
      · rw [if_pos h, localeCompare_le_iff]
        have hd : (catOrEmpty a).data ≠ (catOrEmpty b).data :=
          fun he => h (String.ext he)
        simp only [h, false_and, or_false]
        exact ⟨fun hle => lt_of_le_of_ne hle hd, le_of_lt⟩

/-- Completion-group rank: incomplete tasks rank 0, completed tasks rank 1. -/
def groupRank (t : Task) : Nat := if t.completed then 1 else 0

/-- What `taskCompare f so a b ≤ 0` means: when the status filter is `all`,
the lexicographic combination of completion-group rank and the sort key;
otherwise the sort key alone. -/
def taskLeKey (f : FilterOption) (so : SortOption) (a b : Task) : Prop :=
  if f = FilterOption.all then
    groupRank a < groupRank b ∨ (groupRank a = groupRank b ∧ sortKeyLe so a b)
  else sortKeyLe so a b

lemma taskLe_iff (f : FilterOption) (so : SortOption) (a b : Task) :
    taskLe f so a b ↔ taskLeKey f so a b := by
  by_cases hf : f = FilterOption.all
  · cases ha : a.completed <;> cases hb : b.completed <;>
      simp [taskLe, taskCompare, taskLeKey, groupRank, ha, hb, hf,
        sortCompare_le_iff]
  · simp [taskLe, taskCompare, taskLeKey, hf, sortCompare_le_iff]

lemma sortKeyLe_total (so : SortOption) (a b : Task) :
    sortKeyLe so a b ∨ sortKeyLe so b a := by
  cases so <;> simp only [sortKeyLe]
  · omega
  · omega
  · exact le_total a.title.data b.title.data
  · rcases lt_trichotomy (catOrEmpty a).data (catOrEmpty b).data with h | h | h
    · exact Or.inl (Or.inl h)
    · have he : catOrEmpty a = catOrEmpty b := String.ext h
      rcases Int.le_total a.deadline b.deadline with hd | hd
      · exact Or.inl (Or.inr ⟨he, hd⟩)
      · exact Or.inr (Or.inr ⟨he.symm, hd⟩)
    · exact Or.inr (Or.inl h)

lemma sortKeyLe_trans (so : SortOption) (a b c : Task) :
    sortKeyLe so a b → sortKeyLe so b c → sortKeyLe so a c := by
  cases so <;> simp only [sortKeyLe]
  · omega
  · omega
  · exact le_trans
  · rintro (h1 | ⟨he1, hd1⟩) (h2 | ⟨he2, hd2⟩)
    · exact Or.inl (lt_trans h1 h2)
    · exact Or.inl (by rw [← congrArg String.data he2]; exact h1)
    · exact Or.inl (by rw [congrArg String.data he1]; exact h2)
    · exact Or.inr ⟨he1.trans he2, le_trans hd1 hd2⟩

lemma taskLe_total (f : FilterOption) (so : SortOption) (a b : Task) :
    taskLe f so a b ∨ taskLe f so b a := by
  rw [taskLe_iff, taskLe_iff]
  unfold taskLeKey
  split
  · rcases Nat.lt_trichotomy (groupRank a) (groupRank b) with h | h | h
    · exact Or.inl (Or.inl h)
    · rcases sortKeyLe_total so a b with hk | hk
      · exact Or.inl (Or.inr ⟨h, hk⟩)
      · exact Or.inr (Or.inr ⟨h.symm, hk⟩)
    · exact Or.inr (Or.inl h)
  · exact sortKeyLe_total so a b

lemma taskLe_trans (f : FilterOption) (so : SortOption) (a b c : Task) :
    taskLe f so a b → taskLe f so b c → taskLe f so a c := by
  rw [taskLe_iff, taskLe_iff, taskLe_iff]
  unfold taskLeKey
  split
  · rintro (h1 | ⟨he1, hk1⟩) (h2 | ⟨he2, hk2⟩)
    · exact Or.inl (lt_trans h1 h2)
    · exact Or.inl (he2 ▸ h1)
    · exact Or.inl (he1 ▸ h2)
    · exact Or.inr ⟨he1.trans he2, sortKeyLe_trans so a b c hk1 hk2⟩
  · exact sortKeyLe_trans so a b c

instance (f : FilterOption) (so : SortOption) : IsTotal Task (taskLe f so) :=
  ⟨taskLe_total f so⟩

instance (f : FilterOption) (so : SortOption) : IsTrans Task (taskLe f so) :=
  ⟨taskLe_trans f so⟩

instance : IsTotal Task deadlineLe :=
  ⟨fun a b => by unfold deadlineLe; omega⟩

instance : IsTrans Task deadlineLe :=
  ⟨fun a b c => by unfold deadlineLe; omega⟩

instance : IsTotal String strLe :=
  ⟨fun s t => le_total s.data t.data⟩

instance : IsTrans String strLe :=
  ⟨fun a b c h1 h2 => le_trans h1 h2⟩

/-! ### Filtering lemmas -/

/-- The status predicate the two filter branches implement. -/
def statusKeep (f : FilterOption) : Task → Bool :=
  match f with
  | .all => fun _ => true
  | .completed => fun t => t.completed
  | .incomplete => fun t => !t.completed

/-- The category predicate the category-filter branch implements. -/
def categoryKeep (cf : String) (t : Task) : Bool :=
  if cf = "all" then true else t.category == some cf

lemma applyStatusFilter_eq (f : FilterOption) (tasks : List Task) :
    applyStatusFilter f tasks = tasks.filter (statusKeep f) := by
  cases f <;> simp [applyStatusFilter, statusKeep]

lemma applyCategoryFilter_eq (cf : String) (tasks : List Task) :
    applyCategoryFilter cf tasks = tasks.filter (categoryKeep cf) := by
  unfold applyCategoryFilter categoryKeep
  by_cases h : cf = "all" <;> simp [h]

lemma mem_filteredAndSortedTasks {t : Task} (tasks : List Task)
    (f : FilterOption) (cf : String) (so : SortOption) :
    t ∈ filteredAndSortedTasks tasks f cf so ↔
      t ∈ tasks ∧ statusKeep f t = true ∧ categoryKeep cf t = true := by
  unfold filteredAndSortedTasks
  rw [(List.perm_insertionSort _ _).mem_iff, applyCategoryFilter_eq,
    applyStatusFilter_eq, List.mem_filter, List.mem_filter]
  tauto

lemma sorted_filteredAndSortedTasks (tasks : List Task) (f : FilterOption)
    (cf : String) (so : SortOption) :
    List.Pairwise (taskLe f so) (filteredAndSortedTasks tasks f cf so) :=
  List.sorted_insertionSort (taskLe f so) _

/-! ### Concrete tasks used in counterexamples and witnesses -/

/-- Scenario task with title "B", priority high, deadline +2d (in ms). -/
def scenarioTaskB : Task :=
  { id := "1", title := "B", deadline := 172800000, priority := .high, completed := false }

/-- Scenario task with title "A", priority low, deadline +1d (in ms). -/
def scenarioTaskA : Task :=
  { id := "2", title := "A", deadline := 86400000, priority := .low, completed := false }

/-- An incomplete task titled "B". -/
def pendingTaskB : Task :=
  { id := "1", title := "B", deadline := 0, priority := .medium, completed := false }

/-- A completed task titled "A". -/
def doneTaskA : Task :=
  { id := "2", title := "A", deadline := 0, priority := .medium, completed := true }

/-- A task whose category is the literal string "all". -/
def catAllTask : Task :=
  { id := "3", title := "t", deadline := 0, priority := .low, completed := false,
    category := some "all" }

/-- A sample create payload. -/
def sampleInput : TaskInputData :=
  { title := "New task", deadline := 5, priority := .medium }

/-! ### Claims -/

/-- C10: for every task list the three counters are mutually consistent:
`incompleteTasksCount` is total minus completed, `completed + incomplete = total`,
and each counter lies in `[0, total]`. -/
theorem C10_counters_consistent (tasks : List Task) :
    completedTasks tasks + incompleteTasksCount tasks = totalTasks tasks
    ∧ incompleteTasksCount tasks = totalTasks tasks - completedTasks tasks
    ∧ completedTasks tasks ≤ totalTasks tasks
    ∧ incompleteTasksCount tasks ≤ totalTasks tasks := by
  have h : completedTasks tasks ≤ totalTasks tasks :=
    List.length_filter_le _ _
  unfold incompleteTasksCount
  omega

/-- C9: view derivation is deterministic (a pure function of its inputs) and
idempotent: deriving from its own output with the same configuration returns
that output unchanged. -/
theorem C9_derive_idempotent (tasks : List Task) (f : FilterOption)
    (cf : String) (so : SortOption) :
    filteredAndSortedTasks tasks f cf so = filteredAndSortedTasks tasks f cf so
    ∧ filteredAndSortedTasks (filteredAndSortedTasks tasks f cf so) f cf so
      = filteredAndSortedTasks tasks f cf so := by
  refine ⟨rfl, ?_⟩
  have hs : applyStatusFilter f (filteredAndSortedTasks tasks f cf so)
      = filteredAndSortedTasks tasks f cf so := by
    rw [applyStatusFilter_eq]
    exact List.filter_eq_self.mpr
      (fun t ht => ((mem_filteredAndSortedTasks tasks f cf so).mp ht).2.1)
  have hc : applyCategoryFilter cf (filteredAndSortedTasks tasks f cf so)
      = filteredAndSortedTasks tasks f cf so := by
    rw [applyCategoryFilter_eq]
    exact List.filter_eq_self.mpr
      (fun t ht => ((mem_filteredAndSortedTasks tasks f cf so).mp ht).2.2)
  show List.insertionSort (taskLe f so)
      (applyCategoryFilter cf (applyStatusFilter f (filteredAndSortedTasks tasks f cf so))) = _
  rw [hs, hc]
  exact List.Sorted.insertionSort_eq (sorted_filteredAndSortedTasks tasks f cf so)

/-- C7: the derived list contains exactly the tasks passing the conjunction of
the status predicate (`all` accepts everything, `completed` keeps completed
tasks, `incomplete` keeps incomplete ones) and the category predicate
("all" accepts everything, any other value requires exact equality). -/
theorem C7_filter_membership (tasks : List Task) (f : FilterOption)
    (cf : String) (so : SortOption) (t : Task) :
    t ∈ filteredAndSortedTasks tasks f cf so ↔
      t ∈ tasks
      ∧ (match f with
         | .all => True
         | .completed => t.completed = true
         | .incomplete => t.completed = false)
      ∧ (cf = "all" ∨ t.category = some cf) := by
  rw [mem_filteredAndSortedTasks]
  cases f <;> by_cases h : cf = "all" <;>
    simp [statusKeep, categoryKeep, h]

/-- C3 (code bug): when the status filter and the category filter are both
"all", neither `Array.prototype.filter` runs, `filtered` aliases the `tasks`
array, and the in-place `Array.prototype.sort` reorders the input task set
itself — contradicting the no-mutation rule.  With any narrower filter the
input survives unchanged. -/
theorem C3_derive_mutates_input :
    tasksAfterDerive [scenarioTaskB, scenarioTaskA] .all "all" .deadline
      ≠ [scenarioTaskB, scenarioTaskA]
    ∧ tasksAfterDerive [scenarioTaskB, scenarioTaskA] .all "all" .deadline
      = [scenarioTaskA, scenarioTaskB]
    ∧ tasksAfterDerive [scenarioTaskB, scenarioTaskA] .incomplete "all" .deadline
      = [scenarioTaskB, scenarioTaskA] := by
  refine ⟨by decide, by decide, by decide⟩

/-- C1 (counterexample): with status filter `all` and sort mode `title`, the
code still orders the incomplete task "B" before the completed task "A";
ordering is not by the title key alone as the claim states. -/
theorem C1_counterexample :
    (filteredAndSortedTasks [pendingTaskB, doneTaskA] .all "all" .title).map Task.title
      = ["B", "A"]
    ∧ ¬ (["B", "A"] : List String).Pairwise (fun x y => x.data ≤ y.data) := by
  refine ⟨by decide, by decide⟩

/-- C1 (amended): when the status filter is `all`, for EVERY sort mode —
including `title` — every incomplete task precedes every completed task,
with the chosen sort key governing inside each completion group; when the
status filter is `completed` or `incomplete`, ordering is by the chosen sort
key alone. -/
theorem C1_completion_grouping (tasks : List Task) (cf : String) (so : SortOption) :
    List.Pairwise
      (fun a b => (a.completed = true → b.completed = true)
        ∧ (a.completed = b.completed → sortKeyLe so a b))
      (filteredAndSortedTasks tasks .all cf so)
    ∧ ∀ f, f ≠ FilterOption.all →
        List.Pairwise (sortKeyLe so) (filteredAndSortedTasks tasks f cf so) := by
  constructor
  · apply (sorted_filteredAndSortedTasks tasks .all cf so).imp
    intro a b hab
    rw [taskLe_iff] at hab
    unfold taskLeKey groupRank at hab
    rw [if_pos rfl] at hab
    cases ha : a.completed <;> cases hb : b.completed <;>
      simp only [ha, hb] at hab ⊢ <;> simp_all
  · intro f hf
    apply (sorted_filteredAndSortedTasks tasks f cf so).imp
    intro a b hab
    rw [taskLe_iff] at hab
    unfold taskLeKey at hab
    rw [if_neg hf] at hab
    exact hab

/-- C1 witness: with the `completed` status filter no grouping applies and
the output is ordered by the title key alone. -/
theorem C1_completion_grouping_witness :
    List.Pairwise (sortKeyLe .title)
      (filteredAndSortedTasks [pendingTaskB, doneTaskA] .completed "all" .title) :=
  (C1_completion_grouping [pendingTaskB, doneTaskA] "all" .title).2 .completed (by decide)

/-- C4: characterization of each sort mode inside a completion group, plus
the concrete two-task scenario: deadline ascending; priority descending by
rank with deadline tie-break; title ascending lexicographic; category
ascending lexicographic (the empty string, standing for an absent category,
is a least element) with deadline tie-break. -/
theorem C4_sort_modes :
    (∀ a b : Task, sortCompare .deadline a b ≤ 0 ↔ a.deadline ≤ b.deadline)
    ∧ (∀ a b : Task, sortCompare .priority a b ≤ 0 ↔
        (priorityOrder b.priority < priorityOrder a.priority
          ∨ (priorityOrder a.priority = priorityOrder b.priority
              ∧ a.deadline ≤ b.deadline)))
    ∧ (∀ a b : Task, sortCompare .title a b ≤ 0 ↔ a.title.data ≤ b.title.data)
    ∧ (∀ a b : Task, sortCompare .category a b ≤ 0 ↔
        ((catOrEmpty a).data < (catOrEmpty b).data
          ∨ (catOrEmpty a = catOrEmpty b ∧ a.deadline ≤ b.deadline)))
    ∧ (∀ c : String, ("" : String).data ≤ c.data)
    ∧ (filteredAndSortedTasks [scenarioTaskB, scenarioTaskA] .all "all" .title).map
        Task.title = ["A", "B"]
    ∧ (filteredAndSortedTasks [scenarioTaskB, scenarioTaskA] .all "all" .priority).map
        Task.title = ["B", "A"]
    ∧ (filteredAndSortedTasks [scenarioTaskB, scenarioTaskA] .all "all" .deadline).map
        Task.title = ["A", "B"] := by
  refine ⟨fun a b => sortCompare_le_iff .deadline a b,
    fun a b => sortCompare_le_iff .priority a b,
    fun a b => sortCompare_le_iff .title a b,
    fun a b => sortCompare_le_iff .category a b,
    fun c => ?_, by decide, by decide, by decide⟩
  cases h : c.data with
  | nil => simp [h]
  | cons x xs => exact le_of_lt (List.nil_lt_cons x xs)

/-- C4 witness: the deadline characterization at the scenario tasks. -/
theorem C4_sort_modes_witness :
    sortCompare .deadline scenarioTaskA scenarioTaskB ≤ 0 :=
  (C4_sort_modes.1 scenarioTaskA scenarioTaskB).mpr (by decide)

/-- C6: `completionRate` equals `round(completed / total * 100)` when the
set is non-empty, equals 0 when it is empty, and is always an integer in
`[0, 100]`. -/
theorem C6_completion_rate (tasks : List Task) :
    (0 < totalTasks tasks →
      completionRate tasks
        = round (((completedTasks tasks : ℚ) / (totalTasks tasks : ℚ)) * 100))
    ∧ (totalTasks tasks = 0 → completionRate tasks = 0)
    ∧ 0 ≤ completionRate tasks ∧ completionRate tasks ≤ 100 := by
  have hb : 0 ≤ completionRate tasks ∧ completionRate tasks ≤ 100 := by
    by_cases h : 0 < totalTasks tasks
    · rw [completionRate, if_pos h]
      have hct : completedTasks tasks ≤ totalTasks tasks :=
        List.length_filter_le _ _
      have ht0 : (0 : ℚ) < (totalTasks tasks : ℚ) := by exact_mod_cast h
      have hq0 : (0 : ℚ) ≤ ((completedTasks tasks : ℚ) / (totalTasks tasks : ℚ)) * 100 := by
        positivity
      have hq1 : ((completedTasks tasks : ℚ) / (totalTasks tasks : ℚ)) * 100 ≤ 100 := by
        have hle : (completedTasks tasks : ℚ) / (totalTasks tasks : ℚ) ≤ 1 :=
          div_le_one_of_le₀ (by exact_mod_cast hct) (le_of_lt ht0)
        linarith
      constructor
      · rw [round_eq]
        exact Int.floor_nonneg.mpr (by linarith)
      · rw [round_eq]
        calc ⌊((completedTasks tasks : ℚ) / (totalTasks tasks : ℚ)) * 100 + 1 / 2⌋
            ≤ ⌊(100 : ℚ) + 1 / 2⌋ := Int.floor_le_floor (by linarith)
          _ = 100 := by norm_num
    · rw [completionRate, if_neg h]
      exact ⟨le_rfl, by norm_num⟩
  exact ⟨fun h => by rw [completionRate, if_pos h],
    fun h => by rw [completionRate, if_neg (by omega)], hb.1, hb.2⟩

/-- C6 witness: a one-task list with its single task completed rates 100%. -/
theorem C6_completion_rate_witness :
    completionRate [doneTaskA]
      = round (((completedTasks [doneTaskA] : ℚ) / (totalTasks [doneTaskA] : ℚ)) * 100) :=
  (C6_completion_rate [doneTaskA]).1 (by decide)

lemma countP_completed_toggle (i : String) :
    ∀ l : List Task, (∀ t ∈ l, t.id = i → t.completed = false) →
      (toggleTaskComplete l i true).countP (fun t => t.completed)
        = l.countP (fun t => t.completed) + l.countP (fun t => t.id == i)
  | [], _ => by simp [toggleTaskComplete]
  | t :: l, h => by
    have ht := h t (List.mem_cons_self t l)
    have ih := countP_completed_toggle i l (fun u hu => h u (List.mem_cons_of_mem t hu))
    unfold toggleTaskComplete at ih ⊢
    by_cases hid : t.id = i
    · simp [List.countP_cons, hid, ht hid, ih]
      omega
    · simp [List.countP_cons, hid, ih]
      omega

/-- C5: the stats block is computed over the unfiltered set: `total` is the
list length, `overdueCount` counts exactly the incomplete tasks with
deadline strictly before `now`, `upcoming` holds at most three incomplete
tasks with deadline ≥ `now` in ascending deadline order; and toggling the
unique task with id `i` to completed keeps `total` unchanged, increments
`completed` by exactly one, and removes the task from the derived list under
the `incomplete` filter. -/
theorem C5_stats_and_toggle (tasks : List Task) (now : Int) (i : String)
    (hone : tasks.countP (fun t => t.id == i) = 1)
    (hinc : ∀ t ∈ tasks, t.id = i → t.completed = false) :
    totalTasks tasks = tasks.length
    ∧ overdueTasksCount tasks now
        = (tasks.filter (fun t => decide (t.completed = false ∧ t.deadline < now))).length
    ∧ (upcomingTasks tasks now).length ≤ 3
    ∧ (∀ t ∈ upcomingTasks tasks now, t.completed = false ∧ now ≤ t.deadline)
    ∧ List.Pairwise (fun a b : Task => a.deadline ≤ b.deadline) (upcomingTasks tasks now)
    ∧ totalTasks (toggleTaskComplete tasks i true) = totalTasks tasks
    ∧ completedTasks (toggleTaskComplete tasks i true) = completedTasks tasks + 1
    ∧ (∀ cf so, ∀ t ∈ filteredAndSortedTasks (toggleTaskComplete tasks i true)
          FilterOption.incomplete cf so, t.id ≠ i) := by
  refine ⟨rfl, ?_, ?_, ?_, ?_, ?_, ?_, ?_⟩
  · unfold overdueTasksCount
    congr 1
    apply List.filter_congr
    intro t _
    cases hc : t.completed <;> simp [hc]
  · exact List.length_take_le 3 _
  · intro t ht
    have hmem := List.take_subset 3 _ ht
    have := (List.perm_insertionSort deadlineLe _).mem_iff.mp hmem
    have := List.mem_filter.mp this
    simpa using this.2
  · have hp : List.Pairwise deadlineLe (upcomingTasks tasks now) :=
      List.Pairwise.sublist (List.take_sublist 3 _)
        (List.sorted_insertionSort deadlineLe _)
    exact hp.imp (fun hab => by unfold deadlineLe at hab; omega)
  · simp [toggleTaskComplete, totalTasks]
  · have hcnt := countP_completed_toggle i tasks hinc
    unfold completedTasks
    rw [← List.countP_eq_length_filter, ← List.countP_eq_length_filter, hcnt, hone]
  · intro cf so t ht
    obtain ⟨hmem, hstat, -⟩ := (mem_filteredAndSortedTasks _ .incomplete cf so).mp ht
    obtain ⟨u, hu, hut⟩ := List.mem_map.mp hmem
    intro hti
    by_cases hui : u.id = i
    · have : t.completed = true := by
        rw [← hut]
        simp [hui]
      simp [statusKeep, this] at hstat
    · have : t = u := by rw [← hut]; simp [hui]
      rw [this] at hti
      exact hui hti

/-- C5 witness: toggling the only (incomplete) task of a one-task list. -/
theorem C5_stats_and_toggle_witness :
    completedTasks (toggleTaskComplete [pendingTaskB] "1" true)
      = completedTasks [pendingTaskB] + 1 :=
  (C5_stats_and_toggle [pendingTaskB] 0 "1" (by decide) (by decide)).2.2.2.2.2.2.1

/-- C8 (counterexample): a task whose category is the literal string "all"
collides with the synthetic "all" entry, so the facet list contains a
duplicate. -/
theorem C8_counterexample :
    uniqueCategories [catAllTask] = ["all", "all"]
    ∧ ¬ (uniqueCategories [catAllTask]).Nodup := by
  refine ⟨by decide, by decide⟩

/-- C8 (amended): the facet list starts with the synthetic "all" entry; its
tail is the sorted, duplicate-free list of exactly the non-empty category
values present in the set; the empty string never appears; and the whole
list is duplicate-free provided no task carries the literal category
"all". -/
theorem C8_category_facets (tasks : List Task) :
    (uniqueCategories tasks).head? = some "all"
    ∧ List.Pairwise strLe (uniqueCategories tasks).tail
    ∧ (uniqueCategories tasks).tail.Nodup
    ∧ (∀ c : String, c ∈ (uniqueCategories tasks).tail ↔
        (c ≠ "" ∧ some c ∈ tasks.map Task.category))
    ∧ "" ∉ uniqueCategories tasks
    ∧ (some "all" ∉ tasks.map Task.category → (uniqueCategories tasks).Nodup) := by
  have htail : (uniqueCategories tasks).tail
      = List.insertionSort strLe
          (((tasks.filterMap Task.category).filter (fun c => c ≠ "")).dedup) := by
    simp [uniqueCategories]
  have hmem : ∀ c : String, c ∈ (uniqueCategories tasks).tail ↔
      (c ≠ "" ∧ some c ∈ tasks.map Task.category) := by
    intro c
    rw [htail, (List.perm_insertionSort strLe _).mem_iff, List.mem_dedup,
      List.mem_filter, List.mem_filterMap]
    simp only [List.mem_map, decide_not]
    constructor
    · rintro ⟨⟨t, ht, hc⟩, hne⟩
      exact ⟨by simpa using hne, t, ht, hc⟩
    · rintro ⟨hne, t, ht, hc⟩
      exact ⟨⟨t, ht, hc⟩, by simpa using hne⟩
  have hnodup : (uniqueCategories tasks).tail.Nodup := by
    rw [htail]
    exact ((List.perm_insertionSort strLe _).nodup_iff).mpr (List.nodup_dedup _)
  refine ⟨by simp [uniqueCategories], ?_, hnodup, hmem, ?_, ?_⟩
  · rw [htail]
    exact List.sorted_insertionSort strLe _
  · intro hcontra
    have hsplit : uniqueCategories tasks = "all" :: (uniqueCategories tasks).tail := by
      simp [uniqueCategories]
    rw [hsplit] at hcontra
    rcases List.mem_cons.mp hcontra with h | h
    · exact absurd h.symm (by decide)
    · exact ((hmem "").mp h).1 rfl
  · intro hno
    have : uniqueCategories tasks = "all" :: (uniqueCategories tasks).tail := by
      simp [uniqueCategories]
    rw [this, List.nodup_cons]
    refine ⟨fun hin => hno ((hmem "all").mp hin).2, hnodup⟩

/-- C8 witness: a task set with no category at all yields the single facet
"all", duplicate-free. -/
theorem C8_category_facets_witness :
    (uniqueCategories [scenarioTaskA]).Nodup :=
  (C8_category_facets [scenarioTaskA]).2.2.2.2.2 (by decide)

/-- C2 (counterexample): submitting `create` does not change the locally
held task list — the `useMutation` configuration has no `onMutate` handler
and performs no optimistic cache update — so the derived view right after
submission (before the adapter resolves) still lacks the new task: from an
empty cache the derived view stays empty. -/
theorem C2_counterexample :
    (submitCreate ⟨[]⟩ sampleInput).tasks = []
    ∧ filteredAndSortedTasks (submitCreate ⟨[]⟩ sampleInput).tasks .all "all" .deadline
      = [] := by
  refine ⟨rfl, by decide⟩

/-- C2 (amended): submitting `create` leaves the derived view unchanged
until remote resolution; adapter failure also leaves it unchanged (there is
no optimistic effect to roll back); after success the task appears exactly
when the next snapshot containing it arrives and the active filters accept
it. -/
theorem C2_create_flow (st : DashboardState) (d : TaskInputData)
    (snap : List Task) (t : Task) (f : FilterOption) (cf : String)
    (so : SortOption) :
    submitCreate st d = st
    ∧ onCreateError (submitCreate st d) = st
    ∧ (applySnapshot (submitCreate st d) snap).tasks = snap
    ∧ (t ∈ snap → statusKeep f t = true → categoryKeep cf t = true →
        t ∈ filteredAndSortedTasks (applySnapshot st snap).tasks f cf so) := by
  refine ⟨rfl, rfl, rfl, fun h1 h2 h3 => ?_⟩
  exact (mem_filteredAndSortedTasks snap f cf so).mpr ⟨h1, h2, h3⟩

/-- C2 witness: a snapshot carrying the new task makes it visible in the
derived view. -/
theorem C2_create_flow_witness :
    pendingTaskB ∈ filteredAndSortedTasks
      (applySnapshot ⟨[]⟩ [pendingTaskB]).tasks .all "all" .deadline :=
  (C2_create_flow ⟨[]⟩ sampleInput [pendingTaskB] pendingTaskB .all "all"
    .deadline).2.2.2 (by decide) (by decide) (by decide)

end TaskWise
